import Mathlib

/-!
# Verification of the tldraw editing-core specification

Shallow embedding of the parts of the tldraw editor relevant to the frozen
claims: the shape-util bounds clamp, the history (mark/bail) manager, the
pointing state of the arrow tool, the children-change hook of the group
shape, the
translate-with-clone drag session, and the snap engine consulted during
translate drags.  Coordinates are rationals; all definitions are
executable.

Layout: all definitions first, then all theorems.
-/

set_option maxRecDepth 8000

namespace Tldraw

/-! ## Geometry primitives -/

/-- A 2d point/vector (page or local space). -/
structure Vec where
  x : ℚ
  y : ℚ
  deriving DecidableEq, Repr

instance : Add Vec := ⟨fun a b => ⟨a.x + b.x, a.y + b.y⟩⟩
instance : Sub Vec := ⟨fun a b => ⟨a.x - b.x, a.y - b.y⟩⟩
instance : Zero Vec := ⟨⟨0, 0⟩⟩

/-- Absolute value (`Math.abs`), embedded explicitly so concrete runs
reduce. -/
def qabs (q : ℚ) : ℚ := if q < 0 then -q else q

/-- An axis-aligned box, as in `Box2d`: origin `x,y` and size `w,h`. -/
structure Box where
  x : ℚ
  y : ℚ
  w : ℚ
  h : ℚ
  deriving DecidableEq, Repr

namespace Box

def minX (b : Box) : ℚ := b.x
def midX (b : Box) : ℚ := b.x + b.w / 2
def maxX (b : Box) : ℚ := b.x + b.w
def minY (b : Box) : ℚ := b.y
def midY (b : Box) : ℚ := b.y + b.h / 2
def maxY (b : Box) : ℚ := b.y + b.h

/-- The snap points of a bounds box: its four corners plus its center
(`Box2d.snapPoints`, the default used by `TLShapeUtil.snapPoints`). -/
def snapPts (b : Box) : List Vec :=
  [⟨b.minX, b.minY⟩, ⟨b.maxX, b.minY⟩, ⟨b.minX, b.maxY⟩, ⟨b.maxX, b.maxY⟩,
    ⟨b.midX, b.midY⟩]

end Box

/-! ## Small list helpers (stand-ins for the JS `filter`/`map` loops,
written as plain structural recursion so that concrete runs reduce). -/

/-- Collect the `some` results of `f` over a list, in order. -/
def collect (f : α → Option β) : List α → List β
  | [] => []
  | a :: l =>
    match f a with
    | some b => b :: collect f l
    | none => collect f l

/-- All pairs `(a, b)` with `a ∈ l1` and `b ∈ l2`, `a`-major order. -/
def pairsOf (l1 l2 : List α) : List (α × α) :=
  l1.foldr (fun a acc => l2.map (fun b => (a, b)) ++ acc) []

/-- Concatenation of the snap points of a list of boxes. -/
def othersPts (others : List Box) : List Vec :=
  others.foldr (fun b acc => b.snapPts ++ acc) []

/-!
## C10: the cached-bounds clamp of `TLShapeUtil.bounds`

Direct translation of `TLShapeUtil.bounds` (src/unnamed/part_000, lines
230-236): the raw result of `getBounds` is returned unchanged unless its
width or height is exactly zero, in which case both dimensions are clamped
up to at least 1.
-/

/-- The `TLShapeUtil.bounds` post-processing of the raw `getBounds` result:
`if (result.width === 0 || result.height === 0) return new Box2d(result.x,
result.y, Math.max(result.width, 1), Math.max(result.height, 1))`. -/
def boundsClamp (result : Box) : Box :=
  if result.w = 0 ∨ result.h = 0 then
    ⟨result.x, result.y, max result.w 1, max result.h 1⟩
  else
    result

/-!
## C1: the history manager (mark / bailToMark)

Modelled from the spec: the `HistoryManager` implementation is not under
`src/` — only its documentation (src/unnamed/part_007, "Undo and redo")
and callers (`Pointing.cancel`) are.  Per the spec (§4.4 and §3 "History
Entry"): the stack is a linear sequence of entries, an entry is either a
reversible command (carrying redo data and inverse undo data) or a named
mark with no effect of its own; `bailToMark(id)` pops and inverse-applies
commands, continuing past intermediate marks, until the mark with the
given id is reached and removed.
-/

/-- A history entry: a named mark, or a command carrying its inverse
(`undoFn`) and forward (`redoFn`) state transformations. -/
inductive HistoryEntry (σ : Type) where
  | mark (id : String)
  | command (undoFn redoFn : σ → σ)

/-- The state of the history manager: the undo stack (head = most recent
entry) together with the current document state. -/
structure History (σ : Type) where
  stack : List (HistoryEntry σ)
  state : σ

/-- The operation `editor.mark(id)`: push a named checkpoint; no effect on
the document. -/
def History.mark (id : String) (h : History σ) : History σ :=
  ⟨.mark id :: h.stack, h.state⟩

/-- Record and apply a command: the document moves forward by `redoFn` and
the entry (with its inverse) is pushed. -/
def History.runCommand (undoFn redoFn : σ → σ) (h : History σ) : History σ :=
  ⟨.command undoFn redoFn :: h.stack, redoFn h.state⟩

/-- Pop entries, inverse-applying commands and discarding marks, until the
mark with the given id is reached (it is removed too). -/
def bailToMarkAux (id : String) : List (HistoryEntry σ) → σ → List (HistoryEntry σ) × σ
  | [], s => ([], s)
  | .mark m :: rest, s =>
    if m = id then (rest, s) else bailToMarkAux id rest s
  | .command undoFn _ :: rest, s => bailToMarkAux id rest (undoFn s)

/-- The operation `editor.bailToMark(id)`: undo and delete all commands and
marks until
the mark with the given id is reached. -/
def History.bailToMark (id : String) (h : History σ) : History σ :=
  ⟨(bailToMarkAux id h.stack h.state).1, (bailToMarkAux id h.stack h.state).2⟩

/-- One recorded user operation between a mark and a bail: either a
command or an intermediate mark. -/
inductive HistOp (σ : Type) where
  | cmd (undoFn redoFn : σ → σ)
  | mk (id : String)

/-- Apply one operation to the history. -/
def applyHistOp (h : History σ) : HistOp σ → History σ
  | .cmd u r => h.runCommand u r
  | .mk id => h.mark id

/-- Run a whole sequence of recorded operations, first op first. -/
def applyHistOps (h : History σ) : List (HistOp σ) → History σ
  | [] => h
  | op :: rest => applyHistOps (applyHistOp h op) rest

/-- Well-formedness of the operations recorded between `mark id` and
`bailToMark id`: the undo of every command is an inverse of its redo, and
no intermediate mark reuses the bail target id. -/
def GoodHistOps (id : String) : List (HistOp σ) → Prop
  | [] => True
  | .cmd u r :: rest => (∀ s, u (r s) = s) ∧ GoodHistOps id rest
  | .mk m :: rest => m ≠ id ∧ GoodHistOps id rest

/-- Entries that popping `entries` would unwind: inverse-apply the
commands, skip the marks (head = most recent). -/
def unwind : List (HistoryEntry σ) → σ → σ
  | [], s => s
  | .mark _ :: rest, s => unwind rest s
  | .command u _ :: rest, s => unwind rest (u s)

/-!
## C6: the `Pointing` state of the arrow tool

Translation of `Pointing.onEnter`/`Pointing.onPointerMove`
(src/packages/editor/src/lib/app/statechart/TLArrowTool/children/Pointing.ts).
The created arrow shape sits at the pointer page point with no rotation,
so `getPointInShapeSpace` is page point minus shape position.  The 300ms
`startPreciseTimeout` callback is modelled by the `didTimeout` flag it
sets.
-/

/-- The page position of the arrow shape created on enter. -/
structure ArrowShapeRef where
  pos : Vec
  deriving DecidableEq, Repr

/-- The conversion `editor.getPointInShapeSpace(shape, p)` for the freshly
created,
unrotated arrow shape. -/
def getPointInShapeSpace (shape : ArrowShapeRef) (p : Vec) : Vec :=
  p - shape.pos

/-- The payload of a `util.onHandleChange` call: the shape-space point the
start handle is placed at and the `isPrecise` flag. -/
structure HandleChangeReq where
  point : Vec
  isPrecise : Bool
  deriving DecidableEq, Repr

/-- What `Pointing.onPointerMove` does. -/
inductive MoveAction where
  | noop
  | bailCreatingAndThrow
  | handoffDraggingHandle (change : Option HandleChangeReq)
  deriving DecidableEq, Repr

/-- The `Pointing` state after `onEnter`: the created shape (if creation
succeeded), whether the 300ms precise timeout has fired, and whether the
arrow util reports handles. -/
structure PointingState where
  shape : Option ArrowShapeRef
  didTimeout : Bool
  handlesPresent : Bool
  deriving DecidableEq, Repr

/-- The editor inputs read by `onPointerMove`. -/
structure PointingInputs where
  originPagePoint : Vec
  currentPagePoint : Vec
  isDragging : Bool
  deriving DecidableEq, Repr

/-- Initial handle placement of `Pointing.onEnter`: the shape is created at
the current page point and its start handle is placed at that point in
shape space, with `isPrecise: true`. -/
def pointingOnEnterChange (currentPagePoint : Vec) : ArrowShapeRef × HandleChangeReq :=
  (⟨currentPagePoint⟩,
    ⟨getPointInShapeSpace ⟨currentPagePoint⟩ currentPagePoint, true⟩)

/-- The handler `Pointing.onPointerMove`: if there is no shape, or the
pointer is not
dragging, do nothing; with no handles, bail to the `creating` mark and
re-throw; if the 300ms timeout has *not* fired, re-place the start handle
at the *origin* page point with `isPrecise: false`, then hand off to
`select.dragging_handle`; if it has fired, hand off without re-placing. -/
def pointingOnPointerMove (st : PointingState) (inputs : PointingInputs) : MoveAction :=
  match st.shape with
  | none => .noop
  | some sh =>
    if inputs.isDragging then
      if st.handlesPresent = false then .bailCreatingAndThrow
      else if st.didTimeout = false then
        .handoffDraggingHandle
          (some ⟨getPointInShapeSpace sh inputs.originPagePoint, false⟩)
      else
        .handoffDraggingHandle none
    else .noop

/-!
## Snap engine (C2, C3, C4, C8, C9)

Modelled from the spec: the `SnapManager` implementation is not under
`src/` — only its tests (translating.test.ts) are.  Per §4.5 of the spec:
given the proposed page-space bounds of the dragged selection and the visible
sibling shapes, the engine computes per-axis point snaps (snap points ≤ a
fixed pixel tolerance apart on that axis) and gap snaps (the dragged shape
sitting between two siblings with one gap within tolerance of the other,
nudged so the gaps become exactly equal), applies the best (smallest)
corrective nudge per axis, and reports snap lines: point lines group all
exactly-aligned snap points sharing an axis coordinate (a line references
at least two points: at least one dragged point and one sibling point),
and the matched gap pair is reported as a single gap line with both
intervals.  The gap-line aggregation of longer equal-gap runs is not
modelled: the claims it would serve involve exactly two siblings.
-/

/-- The fixed snap tolerance in page pixels. -/
def snapTol : ℚ := 8

/-- A snap candidate on one axis: either a point match or a gap
(snap-between) match between two siblings `l` (before the dragged shape)
and `r` (after it); `nudge` is the corrective offset on that axis. -/
inductive SnapCandidate where
  | point (nudge : ℚ)
  | gap (nudge : ℚ) (l r : Box)
  deriving DecidableEq, Repr

/-- The corrective offset a candidate proposes. -/
def SnapCandidate.nudge : SnapCandidate → ℚ
  | .point n => n
  | .gap n _ _ => n

/-- Point-snap candidates on the x axis: a dragged snap point and a
sibling snap point whose x coordinates are within tolerance. -/
def pointCandsX (dragged : Box) (others : List Box) : List SnapCandidate :=
  collect
    (fun pq =>
      if qabs (pq.2.x - pq.1.x) ≤ snapTol then
        some (.point (pq.2.x - pq.1.x))
      else none)
    (pairsOf dragged.snapPts (othersPts others))

/-- Point-snap candidates on the y axis. -/
def pointCandsY (dragged : Box) (others : List Box) : List SnapCandidate :=
  collect
    (fun pq =>
      if qabs (pq.2.y - pq.1.y) ≤ snapTol then
        some (.point (pq.2.y - pq.1.y))
      else none)
    (pairsOf dragged.snapPts (othersPts others))

/-- Gap-snap (snap-between) candidate for one ordered sibling pair on the
x axis: the dragged shape must sit between the two with a gap on either
side (which excludes any shape wider than the space between them), both
siblings must overlap the dragged shape on the other axis, and the two
gaps must be within tolerance of each other; the nudge makes them exactly
equal. -/
def gapCandX (dragged : Box) (lr : Box × Box) : Option SnapCandidate :=
  if lr.1.maxX ≤ dragged.minX ∧ dragged.maxX ≤ lr.2.minX ∧
      lr.1.minY ≤ dragged.maxY ∧ dragged.minY ≤ lr.1.maxY ∧
      lr.2.minY ≤ dragged.maxY ∧ dragged.minY ≤ lr.2.maxY ∧
      qabs ((lr.2.minX - dragged.maxX) - (dragged.minX - lr.1.maxX)) ≤ snapTol then
    some (.gap (((lr.2.minX - dragged.maxX) - (dragged.minX - lr.1.maxX)) / 2) lr.1 lr.2)
  else none

/-- Gap-snap candidate for one ordered sibling pair on the y axis. -/
def gapCandY (dragged : Box) (tb : Box × Box) : Option SnapCandidate :=
  if tb.1.maxY ≤ dragged.minY ∧ dragged.maxY ≤ tb.2.minY ∧
      tb.1.minX ≤ dragged.maxX ∧ dragged.minX ≤ tb.1.maxX ∧
      tb.2.minX ≤ dragged.maxX ∧ dragged.minX ≤ tb.2.maxX ∧
      qabs ((tb.2.minY - dragged.maxY) - (dragged.minY - tb.1.maxY)) ≤ snapTol then
    some (.gap (((tb.2.minY - dragged.maxY) - (dragged.minY - tb.1.maxY)) / 2) tb.1 tb.2)
  else none

/-- All x-axis candidates: point matches then gap matches. -/
def xCandidates (dragged : Box) (others : List Box) : List SnapCandidate :=
  pointCandsX dragged others ++ collect (gapCandX dragged) (pairsOf others others)

/-- All y-axis candidates. -/
def yCandidates (dragged : Box) (others : List Box) : List SnapCandidate :=
  pointCandsY dragged others ++ collect (gapCandY dragged) (pairsOf others others)

/-- The best candidate: smallest absolute nudge, earlier wins ties. -/
def bestCand : List SnapCandidate → Option SnapCandidate
  | [] => none
  | c :: rest =>
    match bestCand rest with
    | none => some c
    | some b => if qabs c.nudge ≤ qabs b.nudge then some c else some b

/-- The nudge applied for an axis. -/
def nudgeOf : Option SnapCandidate → ℚ
  | none => 0
  | some c => c.nudge

/-- The axis a snap line lies on / extends along. -/
inductive Axis where
  | x
  | y
  deriving DecidableEq, Repr

/-- A reported snap line: a `points` line groups all snap points sharing
an axis coordinate; a `gaps` line reports the matched gap intervals
(start/end edge coordinates along the axis). -/
inductive SnapLine where
  | points (ax : Axis) (coord : ℚ) (pts : List Vec)
  | gaps (ax : Axis) (gs : List (ℚ × ℚ))
  deriving DecidableEq, Repr

/-- Vertical point-snap lines of the snapped (final) box: for each
distinct x coordinate of a dragged snap point, if any sibling snap point
shares it exactly, report one line holding the dragged and sibling points
on it (duplicate coordinates collapse). -/
def pointLinesX (final : Box) (others : List Box) : List SnapLine :=
  collect
    (fun v =>
      match collect (fun q => if q.x = v then some q else none) (othersPts others) with
      | [] => none
      | onLine =>
        some (.points .x v
          ((collect (fun p => if p.x = v then some p else none) final.snapPts
            ++ onLine).dedup)))
    ((final.snapPts.map Vec.x).dedup)

/-- Horizontal point-snap lines of the snapped (final) box. -/
def pointLinesY (final : Box) (others : List Box) : List SnapLine :=
  collect
    (fun v =>
      match collect (fun q => if q.y = v then some q else none) (othersPts others) with
      | [] => none
      | onLine =>
        some (.points .y v
          ((collect (fun p => if p.y = v then some p else none) final.snapPts
            ++ onLine).dedup)))
    ((final.snapPts.map Vec.y).dedup)

/-- The gap line of the applied x-axis candidate, when it is a gap match:
one line with both intervals, from the right edge of the left sibling to
the left edge of the snapped shape and from its right edge to the left
edge of the right sibling. -/
def candGapLineX (final : Box) : Option SnapCandidate → List SnapLine
  | some (.gap _ l r) => [.gaps .x [(l.maxX, final.minX), (final.maxX, r.minX)]]
  | _ => []

/-- The gap line of the applied y-axis candidate. -/
def candGapLineY (final : Box) : Option SnapCandidate → List SnapLine
  | some (.gap _ t b) => [.gaps .y [(t.maxY, final.minY), (final.maxY, b.minY)]]
  | _ => []

/-- Advisory output of the engine: the snapped bounds (the corrective
offset applied to the proposal) and the snap lines to render. -/
structure SnapResult where
  box : Box
  lines : List SnapLine
  deriving DecidableEq, Repr

/-- The snap engine for a translate drag: per axis, pick the candidate
with the smallest corrective nudge and apply it; report the point lines of
the snapped bounds and the gap lines of the applied gap candidates. -/
def snapTranslate (proposed : Box) (others : List Box) : SnapResult :=
  let cx := bestCand (xCandidates proposed others)
  let cy := bestCand (yCandidates proposed others)
  let final : Box :=
    ⟨proposed.x + nudgeOf cx, proposed.y + nudgeOf cy, proposed.w, proposed.h⟩
  ⟨final,
    pointLinesX final others ++ pointLinesY final others
      ++ candGapLineX final cx ++ candGapLineY final cy⟩

/-- Round a coordinate to the nearest multiple of the grid step. -/
def roundToGrid (step q : ℚ) : ℚ := round (q / step) * step

/-- One mid-drag translate update, modelled from the §4.5 gating
sentence: `ctrl` (the snap modifier) is the overall gate for snap
computation; without it no snap lines are computed and the shape moves
freely, rounding to the grid only when grid mode is enabled; with it the
snap engine runs and grid rounding is suppressed for the gesture. -/
def translateStep (ctrl grid : Bool) (gridStep : ℚ) (proposed : Box)
    (others : List Box) : SnapResult :=
  if ctrl then snapTranslate proposed others
  else
    ⟨if grid then
        ⟨roundToGrid gridStep proposed.x, roundToGrid gridStep proposed.y,
          proposed.w, proposed.h⟩
      else proposed,
      []⟩

/-!
### Snap-target filtering (C9)

Modelled from the spec: the candidate siblings passed to the snap engine
exclude the dragged shapes, their descendants, and shapes bound to a
dragged shape by an arrow binding.
-/

/-- A shape on the page as the snap-target filter sees it: its id, parent,
page-space bounds, and (for arrows) the ids it is bound to. -/
structure SceneShape where
  id : Nat
  parentId : Option Nat
  box : Box
  boundTo : List Nat
  deriving DecidableEq, Repr

/-- The ancestor ids of shape `i`, walking `parentId` with fuel. -/
def ancestorIds (scene : List SceneShape) : Nat → Nat → List Nat
  | 0, _ => []
  | fuel + 1, i =>
    match scene.find? (fun s => s.id == i) with
    | none => []
    | some s =>
      match s.parentId with
      | none => []
      | some p => p :: ancestorIds scene fuel p

/-- Whether a shape is excluded from being a snap target for the dragged
ids: it is dragged itself, is a descendant of a dragged shape, or is bound
to a dragged shape. -/
def excludedFromSnaps (scene : List SceneShape) (draggedIds : List Nat)
    (s : SceneShape) : Bool :=
  draggedIds.contains s.id
    || (ancestorIds scene scene.length s.id).any (fun a => draggedIds.contains a)
    || s.boundTo.any (fun b => draggedIds.contains b)

/-- The snap-target bounds for a drag: every scene shape not excluded. -/
def snapTargets (scene : List SceneShape) (draggedIds : List Nat) : List Box :=
  collect
    (fun s => if excludedFromSnaps scene draggedIds s then none else some s.box)
    scene

/-- The snap engine run against the filtered targets of a scene. -/
def snapTranslateInScene (proposed : Box) (scene : List SceneShape)
    (draggedIds : List Nat) : SnapResult :=
  snapTranslate proposed (snapTargets scene draggedIds)

/-! ### History proof support (C1) -/

/-- The stack entries that running `ops` pushes (head = most recent). -/
def entriesOfOps : List (HistOp σ) → List (HistoryEntry σ)
  | [] => []
  | .cmd u r :: rest => entriesOfOps rest ++ [.command u r]
  | .mk m :: rest => entriesOfOps rest ++ [.mark m]

/-- The document state after running `ops` from `s`. -/
def runOps (s : σ) : List (HistOp σ) → σ
  | [] => s
  | .cmd _ r :: rest => runOps (r s) rest
  | .mk _ :: rest => runOps s rest

/-!
## C5: the translate session with clone-while-dragging

Modelled from the spec: the translating session of the select tool is not
under `src/` — only its tests (translating.test.ts) are.  Per §4.3 of the
spec: a translate drag snapshots the pre-drag positions of the dragged
shapes; on Alt-down mid-drag the originals are restored to the snapshot
positions and fresh clones are created at the dragged positions and become
the drag target; on Alt-up, after the ~200ms debounce, the clones are
removed and the originals resume at the current pointer offset.  Time is
abstracted: `sessionAltUpDebounced` is the Alt release after the debounce
has elapsed.  Clone ids are minted by offsetting the original id by
`cloneBase`.
-/

/-- One dragged shape with its pre-drag (snapshot) position. -/
structure ClonePair where
  id : Nat
  pos : Vec
  deriving DecidableEq, Repr

/-- The translate-session state mid-drag. -/
structure TranslatingSession where
  snapshot : List ClonePair
  delta : Vec
  cloning : Bool
  cloneBase : Nat
  deriving DecidableEq, Repr

/-- The shapes of the document as the session maintains them: while
cloning, the originals sit at their snapshot positions and the clones at
the dragged positions; otherwise the originals sit at the dragged
positions. -/
def sessionShapes (s : TranslatingSession) : List (Nat × Vec) :=
  if s.cloning then
    s.snapshot.map (fun c => (c.id, c.pos))
      ++ s.snapshot.map (fun c => (s.cloneBase + c.id, c.pos + s.delta))
  else
    s.snapshot.map (fun c => (c.id, c.pos + s.delta))

/-- A pointer move updates the drag offset (applied to the drag target). -/
def sessionMove (d : Vec) (s : TranslatingSession) : TranslatingSession :=
  { s with delta := d }

/-- Alt pressed mid-drag: start cloning. -/
def sessionAltDown (s : TranslatingSession) : TranslatingSession :=
  { s with cloning := true }

/-- Alt released and the debounce elapsed: stop cloning. -/
def sessionAltUpDebounced (s : TranslatingSession) : TranslatingSession :=
  { s with cloning := false }

/-- Position of the shape with the given id, if present. -/
def findPos (l : List (Nat × Vec)) (i : Nat) : Option Vec :=
  (l.find? (fun p => p.1 == i)).map Prod.snd

/-!
## C7: the group children-change hook

The hook itself is a direct translation of `TLGroupUtil.onChildrenChange`
(src/packages/editor/src/lib/app/shapeutils/TLGroupUtil/TLGroupUtil.tsx,
lines 90-106).  The editor operations it calls (`getSortedChildIds`,
`popFocusLayer`, `reparentShapesById`, `deleteShapes`) are not under
`src/` and are modelled from the spec: shapes form a parent tree with a
local transform of translation-then-rotation (§3 "Transform"), reparenting
keeps the page transform by re-expressing the local transform relative to
the new parent, deleting removes the listed records, and popping the focus
layer moves it to the parent of the focused group (or the page).  Sibling
ordering by index keys is irrelevant to the claim and is not modelled
(`getSortedChildIds` returns children in record order).  Rotations are
carried as a cosine/sine pair.
-/

/-- A rigid page/local transform: rotation `(c, s)` followed by a
translation `t`; this is `Matrix2d.Compose(Translate(x, y), Rotate(r))`
with the rotation entries kept abstract as a pair. -/
structure Iso where
  c : ℚ
  s : ℚ
  t : Vec
  deriving DecidableEq, Repr

namespace Iso

/-- Apply the transform to a point: rotate, then translate. -/
def apply (m : Iso) (p : Vec) : Vec :=
  ⟨m.c * p.x - m.s * p.y + m.t.x, m.s * p.x + m.c * p.y + m.t.y⟩

/-- Composition: apply `b`, then `a`. -/
def comp (a b : Iso) : Iso :=
  ⟨a.c * b.c - a.s * b.s, a.s * b.c + a.c * b.s, a.apply b.t⟩

/-- The identity transform. -/
def one : Iso := ⟨1, 0, ⟨0, 0⟩⟩

/-- Squared norm of the rotation entries (1 for a true rotation). -/
def normSq (m : Iso) : ℚ := m.c ^ 2 + m.s ^ 2

/-- Inverse (as a rigid transform; correct whenever `normSq ≠ 0`). -/
def inv (m : Iso) : Iso :=
  ⟨m.c / m.normSq, -m.s / m.normSq,
    ⟨-(m.c * m.t.x + m.s * m.t.y) / m.normSq,
      -(m.c * m.t.y - m.s * m.t.x) / m.normSq⟩⟩

end Iso

/-- A shape record of the modelled editor: id, parent (`none` = the
page), local position and local rotation as a cosine/sine pair. -/
structure EShape where
  id : Nat
  parentId : Option Nat
  x : ℚ
  y : ℚ
  rc : ℚ
  rs : ℚ
  deriving DecidableEq, Repr

/-- The local (shape-to-parent) transform of a shape record. -/
def EShape.localIso (sh : EShape) : Iso := ⟨sh.rc, sh.rs, ⟨sh.x, sh.y⟩⟩

/-- The modelled editor: the shape records and the focus layer
(`none` = the page). -/
structure Editor where
  shapes : List EShape
  focusLayerId : Option Nat
  deriving DecidableEq, Repr

/-- Find a shape record by id (`editor.getShapeById`). -/
def Editor.getShapeById (e : Editor) (i : Nat) : Option EShape :=
  e.shapes.find? (fun s => s.id == i)

/-- The child ids of a parent (`editor.getSortedChildIds`; index-key
ordering not modelled, see the section comment). -/
def Editor.getSortedChildIds (e : Editor) (parent : Nat) : List Nat :=
  collect (fun s => if s.parentId = some parent then some s.id else none) e.shapes

/-- The walk of the shape-to-page transform, with fuel bounding the
ancestor chain length. -/
def pageIsoAux (e : Editor) : Nat → Nat → Option Iso
  | 0, _ => none
  | fuel + 1, i =>
    match e.getShapeById i with
    | none => none
    | some sh =>
      match sh.parentId with
      | none => some sh.localIso
      | some p => (pageIsoAux e fuel p).map (fun mp => mp.comp sh.localIso)

/-- The shape-to-page transform of a shape. -/
def Editor.pageIso (e : Editor) (i : Nat) : Option Iso :=
  pageIsoAux e e.shapes.length i

/-- The page-to-page transform of a parent slot: the identity for the
page, else the page transform of the parent shape. -/
def parentPageIso (e : Editor) : Option Nat → Option Iso
  | none => some Iso.one
  | some p => e.pageIso p

/-- Delete the listed shape records (`editor.deleteShapes`; the deleted
group has no remaining children in both branches of the hook, so cascading
deletion of descendants is irrelevant here). -/
def Editor.deleteShapes (e : Editor) (ids : List Nat) : Editor :=
  ⟨collect (fun s => if s.id ∈ ids then none else some s) e.shapes,
    e.focusLayerId⟩

/-- Pop the focus layer: move it to the parent of the focused shape, or
the page (`editor.popFocusLayer`, modelled from the spec). -/
def Editor.popFocusLayer (e : Editor) : Editor :=
  ⟨e.shapes,
    match e.focusLayerId with
    | none => none
    | some f =>
      match e.getShapeById f with
      | none => none
      | some sh => sh.parentId⟩

/-- The per-record update of a reparent call: a listed shape moves to the
new parent with its local transform re-expressed so that its page
transform is unchanged; other shapes are untouched. -/
def reparentFn (e : Editor) (ids : List Nat) (newParent : Option Nat)
    (sh : EShape) : EShape :=
  if sh.id ∈ ids then
    match e.pageIso sh.id, parentPageIso e newParent with
    | some childPage, some parentPage =>
      let m := parentPage.inv.comp childPage
      { sh with parentId := newParent, x := m.t.x, y := m.t.y, rc := m.c, rs := m.s }
    | _, _ => sh
  else sh

/-- Reparent shapes to a new parent keeping their page transform
(`editor.reparentShapesById`, modelled from the spec): the new local
transform is the inverse of the new parent page transform composed with
the old page transform of the shape. -/
def Editor.reparentShapesById (e : Editor) (ids : List Nat)
    (newParent : Option Nat) : Editor :=
  ⟨e.shapes.map (reparentFn e ids newParent), e.focusLayerId⟩

/-- Direct translation of `TLGroupUtil.onChildrenChange`: with no children
left, pop the focus layer if the group is focused and delete the group;
with exactly one child left, pop the focus layer if the group is focused,
reparent the child to the parent of the group and delete the group;
otherwise do nothing. -/
def onChildrenChange (e : Editor) (groupId : Nat) : Editor :=
  match e.getShapeById groupId with
  | none => e
  | some g =>
    let children := e.getSortedChildIds groupId
    if children.length = 0 then
      let e1 := if e.focusLayerId = some groupId then e.popFocusLayer else e
      e1.deleteShapes [groupId]
    else if children.length = 1 then
      let e1 := if e.focusLayerId = some groupId then e.popFocusLayer else e
      let e2 := e1.reparentShapesById children g.parentId
      e2.deleteShapes [groupId]
    else e

/-- The page transform reached by walking an ancestor chain, as a
relation: `ChainIso e parentSlot ids m` holds when following `parentSlot`
upward visits the shape ids `ids` and composes to the page transform `m`.
Used to state that reparenting preserves the page transform without
committing to a fuel bound. -/
inductive ChainIso (e : Editor) : Option Nat → List Nat → Iso → Prop where
  | page : ChainIso e none [] Iso.one
  | shape (i : Nat) (sh : EShape) (ids : List Nat) (m : Iso) :
      e.getShapeById i = some sh →
      ChainIso e sh.parentId ids m →
      ChainIso e (some i) (i :: ids) (m.comp sh.localIso)

/-!
# Theorems

Shared helper lemmas first, then one theorem (with counterexample and
witness where required) per claim.
-/

/-! ## Helper lemmas -/

theorem qabs_eq_abs (q : ℚ) : qabs q = |q| := by
  unfold qabs
  split
  · exact (abs_of_neg (by assumption)).symm
  · exact (abs_of_nonneg (le_of_not_lt (by assumption))).symm

theorem collect_eq_nil {f : α → Option β} {l : List α}
    (h : ∀ a ∈ l, f a = none) : collect f l = [] := by
  induction l with
  | nil => rfl
  | cons a l ih =>
    have ha : f a = none := h a (List.mem_cons_self a l)
    simp only [collect, ha]
    exact ih fun x hx => h x (List.mem_cons_of_mem a hx)

theorem eq_none_of_collect_nil {f : α → Option β} {l : List α}
    (h : collect f l = []) : ∀ a ∈ l, f a = none := by
  induction l with
  | nil => simp
  | cons a l ih =>
    intro x hx
    cases hfa : f a with
    | some b =>
      rw [collect, hfa] at h
      exact absurd h (by simp)
    | none =>
      rw [collect, hfa] at h
      rcases List.mem_cons.mp hx with rfl | hx'
      · exact hfa
      · exact ih h x hx'

theorem pairsOf_cons (a : α) (l1 l2 : List α) :
    pairsOf (a :: l1) l2 = l2.map (fun b => (a, b)) ++ pairsOf l1 l2 := rfl

theorem mem_pairsOf {l1 l2 : List α} {p : α × α} :
    p ∈ pairsOf l1 l2 ↔ p.1 ∈ l1 ∧ p.2 ∈ l2 := by
  induction l1 with
  | nil => simp [pairsOf]
  | cons a l ih =>
    rw [pairsOf_cons]
    simp only [List.mem_append, List.mem_map, ih, List.mem_cons]
    constructor
    · rintro (⟨b, hb, rfl⟩ | ⟨h1, h2⟩)
      · exact ⟨Or.inl rfl, hb⟩
      · exact ⟨Or.inr h1, h2⟩
    · rintro ⟨h1 | h1, h2⟩
      · exact Or.inl ⟨p.2, h2, by rw [← h1]⟩
      · exact Or.inr ⟨h1, h2⟩

theorem mem_othersPts {others : List Box} {q : Vec} :
    q ∈ othersPts others ↔ ∃ b ∈ others, q ∈ b.snapPts := by
  induction others with
  | nil => simp [othersPts]
  | cons b l ih =>
    show q ∈ b.snapPts ++ othersPts l ↔ _
    simp only [List.mem_append, ih, List.mem_cons]
    constructor
    · rintro (h | ⟨c, hc, hq⟩)
      · exact ⟨b, Or.inl rfl, h⟩
      · exact ⟨c, Or.inr hc, hq⟩
    · rintro ⟨c, hc | hc, hq⟩
      · exact Or.inl (hc ▸ hq)
      · exact Or.inr ⟨c, hc, hq⟩

/-!
## C10
-/

/-- C10 (counterexample): a raw 1/2 × 1/2 bounds is passed through the
cached-bounds clamp unchanged, so the cached bounds do *not* always report
width and height of at least 1 — the clamp fires only when a dimension is
exactly zero. -/
theorem boundsClamp_not_always_ge_one :
    ¬(1 ≤ (boundsClamp ⟨0, 0, 1/2, 1/2⟩).w ∧ 1 ≤ (boundsClamp ⟨0, 0, 1/2, 1/2⟩).h) := by
  norm_num [boundsClamp]

/-- C10 (amended): whenever the raw geometry is degenerate — zero width or
zero height — the cached bounds report width and height of at least 1, so
a zero dimension is never exposed to downstream math. -/
theorem boundsClamp_ge_one_of_degenerate (result : Box)
    (hdeg : result.w = 0 ∨ result.h = 0) :
    1 ≤ (boundsClamp result).w ∧ 1 ≤ (boundsClamp result).h := by
  unfold boundsClamp
  rw [if_pos hdeg]
  exact ⟨le_max_right _ _, le_max_right _ _⟩

/-- C10 witness: the amended theorem applied to a fully zero-sized raw
bounds. -/
theorem boundsClamp_ge_one_of_degenerate_witness :
    1 ≤ (boundsClamp ⟨3, 4, 0, 0⟩).w ∧ 1 ≤ (boundsClamp ⟨3, 4, 0, 0⟩).h :=
  boundsClamp_ge_one_of_degenerate ⟨3, 4, 0, 0⟩ (Or.inl rfl)

/-!
## C1
-/

theorem unwind_append (l1 l2 : List (HistoryEntry σ)) (s : σ) :
    unwind (l1 ++ l2) s = unwind l2 (unwind l1 s) := by
  induction l1 generalizing s with
  | nil => rfl
  | cons e l ih => cases e <;> simp [unwind, ih]

theorem applyHistOps_eq (ops : List (HistOp σ)) :
    ∀ (B : List (HistoryEntry σ)) (s : σ),
      applyHistOps ⟨B, s⟩ ops = ⟨entriesOfOps ops ++ B, runOps s ops⟩ := by
  induction ops with
  | nil => intro B s; rfl
  | cons op rest ih =>
    intro B s
    cases op with
    | cmd u r =>
      show applyHistOps ⟨.command u r :: B, r s⟩ rest = _
      rw [ih]
      simp [entriesOfOps, runOps]
    | mk m =>
      show applyHistOps ⟨.mark m :: B, s⟩ rest = _
      rw [ih]
      simp [entriesOfOps, runOps]

theorem bailToMarkAux_through (id : String) :
    ∀ (pre st : List (HistoryEntry σ)) (s : σ),
      (∀ m, HistoryEntry.mark m ∈ pre → m ≠ id) →
      bailToMarkAux id (pre ++ .mark id :: st) s = (st, unwind pre s) := by
  intro pre
  induction pre with
  | nil =>
    intro st s _
    simp [bailToMarkAux, unwind]
  | cons e l ih =>
    intro st s h
    cases e with
    | mark m =>
      have hm : m ≠ id := h m (List.mem_cons_self _ _)
      simp only [List.cons_append, bailToMarkAux, if_neg hm, unwind]
      exact ih st s fun m' hm' => h m' (List.mem_cons_of_mem _ hm')
    | command u r =>
      simp only [List.cons_append, bailToMarkAux, unwind]
      exact ih st (u s) fun m' hm' => h m' (List.mem_cons_of_mem _ hm')

theorem unwind_entriesOfOps (id : String) (ops : List (HistOp σ)) :
    GoodHistOps id ops → ∀ s, unwind (entriesOfOps ops) (runOps s ops) = s := by
  induction ops with
  | nil => intro _ s; rfl
  | cons op rest ih =>
    intro hg s
    cases op with
    | cmd u r =>
      have hu : ∀ t, u (r t) = t := hg.1
      show unwind (entriesOfOps rest ++ [.command u r]) (runOps (r s) rest) = s
      rw [unwind_append, ih hg.2 (r s)]
      simp [unwind, hu]
    | mk m =>
      show unwind (entriesOfOps rest ++ [.mark m]) (runOps s rest) = s
      rw [unwind_append, ih hg.2 s]
      rfl

theorem marks_entriesOfOps (id : String) (ops : List (HistOp σ))
    (hg : GoodHistOps id ops) :
    ∀ m, HistoryEntry.mark m ∈ entriesOfOps ops → m ≠ id := by
  induction ops with
  | nil => simp [entriesOfOps]
  | cons op rest ih =>
    cases op with
    | cmd u r =>
      intro m hm
      rw [entriesOfOps] at hm
      rcases List.mem_append.mp hm with h1 | h1
      · exact ih hg.2 m h1
      · simp at h1
    | mk m0 =>
      intro m hm
      rw [entriesOfOps] at hm
      rcases List.mem_append.mp hm with h1 | h1
      · exact ih hg.2 m h1
      · have : m = m0 := by simpa using h1
        exact this ▸ hg.1

/-- C1: after `mark id`, running any sequence of well-formed commands and
differently named intermediate marks, `bailToMark id` restores the history
— document state and stack — to exactly what it was at the mark. -/
theorem bailToMark_restores_mark_state (σ : Type) (h : History σ) (id : String)
    (ops : List (HistOp σ)) (hg : GoodHistOps id ops) :
    History.bailToMark id (applyHistOps (History.mark id h) ops) = h := by
  have He : applyHistOps (History.mark id h) ops
      = ⟨entriesOfOps ops ++ (.mark id :: h.stack), runOps h.state ops⟩ :=
    applyHistOps_eq ops (.mark id :: h.stack) h.state
  rw [He]
  unfold History.bailToMark
  rw [bailToMarkAux_through id _ _ _ (marks_entriesOfOps id ops hg)]
  rw [unwind_entriesOfOps id ops hg h.state]

/-- C1 witness: a concrete integer document with two invertible commands
and an intermediate mark named differently. -/
theorem bailToMark_restores_mark_state_witness :
    History.bailToMark "m"
      (applyHistOps (History.mark "m" (⟨[], (0 : ℤ)⟩ : History ℤ))
        [.cmd (fun s => s - 1) (fun s => s + 1), .mk "n",
          .cmd (fun s => s - 5) (fun s => s + 5)])
      = ⟨[], 0⟩ :=
  bailToMark_restores_mark_state ℤ ⟨[], 0⟩ "m" _
    ⟨fun s => add_sub_cancel_right s 1, by decide,
      fun s => add_sub_cancel_right s 5, trivial⟩

/-!
## C6
-/

theorem vec_sub_def (a b : Vec) : a - b = ⟨a.x - b.x, a.y - b.y⟩ := rfl

theorem vec_add_def (a b : Vec) : a + b = ⟨a.x + b.x, a.y + b.y⟩ := rfl

theorem vec_sub_left_cancel {a b c : Vec} (h : a - c = b - c) : a = b := by
  rw [vec_sub_def, vec_sub_def, Vec.mk.injEq] at h
  obtain ⟨h1, h2⟩ := h
  obtain ⟨ax, ay⟩ := a
  obtain ⟨bx, by_⟩ := b
  simp only at h1 h2
  rw [Vec.mk.injEq]
  exact ⟨by linarith, by linarith⟩

/-- C6 (counterexample): the claim as stated is false.  Within the
precise-placement window (`didTimeout = false`), `Pointing.onPointerMove`
re-places the start handle with `isPrecise: false` — it does not preserve
a precise anchor flag.  (Conversely, when the timeout has fired, the state
performs no re-placement at all.) -/
theorem pointing_precise_window_counterexample :
    ¬(∀ (st : PointingState) (inputs : PointingInputs),
        st.didTimeout = false →
        inputs.isDragging = true →
        st.handlesPresent = true →
        ∀ c, pointingOnPointerMove st inputs = .handoffDraggingHandle (some c) →
          c.isPrecise = true) := by
  intro hclaim
  have hrun : pointingOnPointerMove ⟨some ⟨⟨5, 5⟩⟩, false, true⟩ ⟨⟨5, 5⟩, ⟨20, 9⟩, true⟩
      = .handoffDraggingHandle (some ⟨⟨0, 0⟩, false⟩) := by
    simp only [pointingOnPointerMove, getPointInShapeSpace, vec_sub_def]
    norm_num
  have h := hclaim ⟨some ⟨⟨5, 5⟩⟩, false, true⟩ ⟨⟨5, 5⟩, ⟨20, 9⟩, true⟩ rfl rfl rfl
    ⟨⟨0, 0⟩, false⟩ hrun
  simp at h

/-- C6 (amended): in the pointing state of the arrow tool, if the 300ms
timer fired before pointer-up, a pointer-move past the drag threshold
hands off to the dragging-handle state without re-placing the start handle
(the placement made on enter stands); otherwise — still within the
precise-placement window — the start handle is re-placed at the original
origin point (not the current pointer point, and equal to the point of the
initial placement when the drag started at the shape), but marked
imprecise (`isPrecise: false`, anchoring to a relative/normalized point),
before handing off. -/
theorem pointing_move_precision (st : PointingState) (inputs : PointingInputs)
    (sh : ArrowShapeRef) (hsh : st.shape = some sh)
    (hdrag : inputs.isDragging = true) (hh : st.handlesPresent = true) :
    (st.didTimeout = true →
      pointingOnPointerMove st inputs = .handoffDraggingHandle none) ∧
    (st.didTimeout = false →
      pointingOnPointerMove st inputs
        = .handoffDraggingHandle
            (some ⟨getPointInShapeSpace sh inputs.originPagePoint, false⟩) ∧
      (sh.pos = inputs.originPagePoint →
        getPointInShapeSpace sh inputs.originPagePoint
          = (pointingOnEnterChange sh.pos).2.point) ∧
      (inputs.originPagePoint ≠ inputs.currentPagePoint →
        getPointInShapeSpace sh inputs.originPagePoint
          ≠ getPointInShapeSpace sh inputs.currentPagePoint)) := by
  obtain ⟨shp, dt, hp⟩ := st
  simp only at hsh
  subst hsh
  simp only at hh
  subst hh
  constructor
  · intro hdt
    simp only at hdt
    subst hdt
    simp [pointingOnPointerMove, hdrag]
  · intro hdt
    simp only at hdt
    subst hdt
    refine ⟨by simp [pointingOnPointerMove, hdrag], ?_, ?_⟩
    · intro hpos
      simp [pointingOnEnterChange, getPointInShapeSpace, ← hpos]
    · intro hne habs
      exact hne (vec_sub_left_cancel habs)

/-- C6 witness: the amended theorem applied at a concrete pointing state
in the precise window, with the shape created at the drag origin. -/
theorem pointing_move_precision_witness :
    ((PointingState.didTimeout ⟨some ⟨⟨5, 5⟩⟩, false, true⟩) = true →
      pointingOnPointerMove ⟨some ⟨⟨5, 5⟩⟩, false, true⟩ ⟨⟨5, 5⟩, ⟨20, 9⟩, true⟩
        = .handoffDraggingHandle none) ∧
    ((PointingState.didTimeout ⟨some ⟨⟨5, 5⟩⟩, false, true⟩) = false →
      pointingOnPointerMove ⟨some ⟨⟨5, 5⟩⟩, false, true⟩ ⟨⟨5, 5⟩, ⟨20, 9⟩, true⟩
        = .handoffDraggingHandle
            (some ⟨getPointInShapeSpace ⟨⟨5, 5⟩⟩ ⟨5, 5⟩, false⟩) ∧
      (ArrowShapeRef.pos ⟨⟨5, 5⟩⟩ = ⟨5, 5⟩ →
        getPointInShapeSpace ⟨⟨5, 5⟩⟩ ⟨5, 5⟩
          = (pointingOnEnterChange (ArrowShapeRef.pos ⟨⟨5, 5⟩⟩)).2.point) ∧
      ((⟨5, 5⟩ : Vec) ≠ ⟨20, 9⟩ →
        getPointInShapeSpace ⟨⟨5, 5⟩⟩ ⟨5, 5⟩
          ≠ getPointInShapeSpace ⟨⟨5, 5⟩⟩ ⟨20, 9⟩)) :=
  pointing_move_precision ⟨some ⟨⟨5, 5⟩⟩, false, true⟩ ⟨⟨5, 5⟩, ⟨20, 9⟩, true⟩
    ⟨⟨5, 5⟩⟩ rfl rfl rfl

/-! ## Snap-engine helper lemmas -/

theorem collect_const_none (l : List α) :
    collect (fun _ => (none : Option β)) l = [] := by
  induction l with
  | nil => rfl
  | cons a l ih => simpa [collect] using ih

theorem no_near_of_pointCandsX_nil {dragged : Box} {others : List Box}
    (h : pointCandsX dragged others = []) :
    ∀ p ∈ dragged.snapPts, ∀ q ∈ othersPts others,
      ¬(qabs (q.x - p.x) ≤ snapTol) := by
  intro p hp q hq hle
  have hnone := eq_none_of_collect_nil h (p, q) (mem_pairsOf.mpr ⟨hp, hq⟩)
  have hnone' :
      (if qabs (q.x - p.x) ≤ snapTol then
        some (SnapCandidate.point (q.x - p.x)) else none) = none := hnone
  rw [if_pos hle] at hnone'
  exact Option.noConfusion hnone'

theorem no_near_of_pointCandsY_nil {dragged : Box} {others : List Box}
    (h : pointCandsY dragged others = []) :
    ∀ p ∈ dragged.snapPts, ∀ q ∈ othersPts others,
      ¬(qabs (q.y - p.y) ≤ snapTol) := by
  intro p hp q hq hle
  have hnone := eq_none_of_collect_nil h (p, q) (mem_pairsOf.mpr ⟨hp, hq⟩)
  have hnone' :
      (if qabs (q.y - p.y) ≤ snapTol then
        some (SnapCandidate.point (q.y - p.y)) else none) = none := hnone
  rw [if_pos hle] at hnone'
  exact Option.noConfusion hnone'

theorem pointLinesX_nil_of_no_align {F : Box} {others : List Box}
    (h : ∀ p ∈ F.snapPts, ∀ q ∈ othersPts others, q.x ≠ p.x) :
    pointLinesX F others = [] := by
  apply collect_eq_nil
  intro v hv
  have hv' : v ∈ F.snapPts.map Vec.x := List.mem_dedup.mp hv
  obtain ⟨p, hp, rfl⟩ := List.mem_map.mp hv'
  have hinner :
      collect (fun q => if q.x = p.x then some q else none) (othersPts others)
        = [] := by
    apply collect_eq_nil
    intro q hq
    rw [if_neg (h p hp q hq)]
  simp only [hinner]

theorem pointLinesY_nil_of_no_align {F : Box} {others : List Box}
    (h : ∀ p ∈ F.snapPts, ∀ q ∈ othersPts others, q.y ≠ p.y) :
    pointLinesY F others = [] := by
  apply collect_eq_nil
  intro v hv
  have hv' : v ∈ F.snapPts.map Vec.y := List.mem_dedup.mp hv
  obtain ⟨p, hp, rfl⟩ := List.mem_map.mp hv'
  have hinner :
      collect (fun q => if q.y = p.y then some q else none) (othersPts others)
        = [] := by
    apply collect_eq_nil
    intro q hq
    rw [if_neg (h p hp q hq)]
  simp only [hinner]

theorem qabs_zero : qabs 0 = 0 := rfl

theorem qabs_nonneg (q : ℚ) : 0 ≤ qabs q := by
  rw [qabs_eq_abs]; exact abs_nonneg q

theorem snapTol_pos : 0 < snapTol := by norm_num [snapTol]

theorem pointLinesX_nil_of_cands {F : Box} {others : List Box}
    (h : pointCandsX F others = []) : pointLinesX F others = [] := by
  apply pointLinesX_nil_of_no_align
  intro p hp q hq heq
  apply no_near_of_pointCandsX_nil h p hp q hq
  rw [heq, sub_self, qabs_zero]
  exact le_of_lt snapTol_pos

theorem pointLinesY_nil_of_cands {F : Box} {others : List Box}
    (h : pointCandsY F others = []) : pointLinesY F others = [] := by
  apply pointLinesY_nil_of_no_align
  intro p hp q hq heq
  apply no_near_of_pointCandsY_nil h p hp q hq
  rw [heq, sub_self, qabs_zero]
  exact le_of_lt snapTol_pos

theorem snapPts_shift (D : Box) (dx dy : ℚ) :
    (Box.mk (D.x + dx) (D.y + dy) D.w D.h).snapPts
      = D.snapPts.map (fun p => ⟨p.x + dx, p.y + dy⟩) := by
  simp only [Box.snapPts, Box.minX, Box.maxX, Box.midX, Box.minY, Box.maxY,
    Box.midY, List.map, List.cons.injEq, Vec.mk.injEq]
  and_intros <;> ring_nf

theorem snapTranslate_nil (b : Box) : snapTranslate b [] = ⟨b, []⟩ := by
  have hx : xCandidates b [] = [] := rfl
  have hy : yCandidates b [] = [] := rfl
  unfold snapTranslate
  rw [hx, hy]
  have hpl : ∀ F : Box, pointLinesX F [] = [] := fun F =>
    pointLinesX_nil_of_no_align (fun p _ q hq => absurd hq (by simp [othersPts]))
  have hply : ∀ F : Box, pointLinesY F [] = [] := fun F =>
    pointLinesY_nil_of_no_align (fun p _ q hq => absurd hq (by simp [othersPts]))
  simp only [bestCand, nudgeOf, add_zero, hpl, hply, candGapLineX, candGapLineY,
    List.append_nil, List.nil_append]

/-!
## C2
-/

/-- C2 (counterexample): with the two 10×10 boxes at (0,0) and (20,0) and
the dragged box proposed at (11,0) — its left edge approaching x=10 under
the snap modifier — the engine does land it at exactly (10,0), but it does
*not* report exactly 1 snap line: since the y coordinates are already
aligned at the landing position, the horizontal alignment lines are
reported as well (4 lines in total). -/
theorem snap_point_lines_counterexample :
    (snapTranslate ⟨11, 0, 10, 10⟩ [⟨0, 0, 10, 10⟩]).box = ⟨10, 0, 10, 10⟩ ∧
    (snapTranslate ⟨11, 0, 10, 10⟩ [⟨0, 0, 10, 10⟩]).lines.length ≠ 1 := by
  norm_num [snapTranslate, xCandidates, yCandidates, pointCandsX, pointCandsY,
    gapCandX, gapCandY, pairsOf, othersPts, Box.snapPts, Box.minX, Box.maxX,
    Box.midX, Box.minY, Box.maxY, Box.midY, collect, qabs, snapTol, bestCand,
    SnapCandidate.nudge, nudgeOf, pointLinesX, pointLinesY, candGapLineX,
    candGapLineY, List.dedup]

/-- C2 (amended): dragging the second box so its left edge approaches x=10
lands its left edge at exactly x=10.  When the drag keeps a vertical
offset (proposed (11,30)) the engine reports exactly 1 snap line
containing 4 points — the four aligned corners; at the fully aligned
landing (10,0) the engine still lands the box at exactly (10,0) and
reports the vertical corner line together with the horizontal alignment
lines of the already-aligned y coordinates. -/
theorem snap_point_lands_and_lines :
    snapTranslate ⟨11, 30, 10, 10⟩ [⟨0, 0, 10, 10⟩]
      = ⟨⟨10, 30, 10, 10⟩,
          [.points .x 10 [⟨10, 30⟩, ⟨10, 40⟩, ⟨10, 0⟩, ⟨10, 10⟩]]⟩ ∧
    snapTranslate ⟨11, 0, 10, 10⟩ [⟨0, 0, 10, 10⟩]
      = ⟨⟨10, 0, 10, 10⟩,
          [.points .x 10 [⟨10, 0⟩, ⟨10, 10⟩],
            .points .y 0 [⟨20, 0⟩, ⟨0, 0⟩, ⟨10, 0⟩],
            .points .y 10 [⟨20, 10⟩, ⟨0, 10⟩, ⟨10, 10⟩],
            .points .y 5 [⟨15, 5⟩, ⟨5, 5⟩]]⟩ := by
  constructor <;>
    norm_num [snapTranslate, xCandidates, yCandidates, pointCandsX, pointCandsY,
      gapCandX, gapCandY, pairsOf, othersPts, Box.snapPts, Box.minX, Box.maxX,
      Box.midX, Box.minY, Box.maxY, Box.midY, collect, qabs, snapTol, bestCand,
      SnapCandidate.nudge, nudgeOf, pointLinesX, pointLinesY, candGapLineX,
      candGapLineY, List.dedup]

/-!
## C4
-/

/-- C4: a dragged shape wider (resp. taller) than the span between every
candidate sibling pair cannot sit between any of them with a gap on either
side, so it is excluded from gap-snap consideration; in a drag where
additionally no point match is within tolerance, the engine reports no
snap at all — zero snap lines and no corrective offset. -/
theorem no_snap_when_larger_than_gap (D : Box) (others : List Box)
    (hpx : pointCandsX D others = []) (hpy : pointCandsY D others = [])
    (hgx : ∀ l ∈ others, ∀ r ∈ others, r.minX - l.maxX < D.w)
    (hgy : ∀ t ∈ others, ∀ b ∈ others, b.minY - t.maxY < D.h) :
    snapTranslate D others = ⟨D, []⟩ := by
  have hgapx : collect (gapCandX D) (pairsOf others others) = [] := by
    apply collect_eq_nil
    intro lr hlr
    obtain ⟨h1, h2⟩ := mem_pairsOf.mp hlr
    unfold gapCandX
    rw [if_neg]
    rintro ⟨c1, c2, -⟩
    have hw := hgx _ h1 _ h2
    simp only [Box.minX, Box.maxX] at c1 c2 hw
    linarith
  have hgapy : collect (gapCandY D) (pairsOf others others) = [] := by
    apply collect_eq_nil
    intro tb htb
    obtain ⟨h1, h2⟩ := mem_pairsOf.mp htb
    unfold gapCandY
    rw [if_neg]
    rintro ⟨c1, c2, -⟩
    have hw := hgy _ h1 _ h2
    simp only [Box.minY, Box.maxY] at c1 c2 hw
    linarith
  have hx : xCandidates D others = [] := by
    unfold xCandidates
    rw [hpx, hgapx]
    rfl
  have hy : yCandidates D others = [] := by
    unfold yCandidates
    rw [hpy, hgapy]
    rfl
  unfold snapTranslate
  rw [hx, hy]
  simp only [bestCand, nudgeOf, add_zero]
  rw [show (Box.mk D.x D.y D.w D.h) = D from rfl,
    pointLinesX_nil_of_cands hpx, pointLinesY_nil_of_cands hpy]
  simp [candGapLineX, candGapLineY]

/-- C4 witness: the configuration of the translating test — a 100-wide bar
dragged across a 40-wide gap between two tall thin boxes: no snap, no
lines. -/
theorem no_snap_when_larger_than_gap_witness :
    snapTranslate ⟨1, 61, 100, 10⟩ [⟨20, 0, 10, 100⟩, ⟨70, 0, 10, 100⟩]
      = ⟨⟨1, 61, 100, 10⟩, []⟩ :=
  no_snap_when_larger_than_gap _ _
    (by norm_num [pointCandsX, pairsOf, othersPts, Box.snapPts, Box.minX,
      Box.maxX, Box.midX, Box.minY, Box.maxY, Box.midY, collect, qabs, snapTol])
    (by norm_num [pointCandsY, pairsOf, othersPts, Box.snapPts, Box.minX,
      Box.maxX, Box.midX, Box.minY, Box.maxY, Box.midY, collect, qabs, snapTol])
    (by norm_num [Box.minX, Box.maxX])
    (by norm_num [Box.minY, Box.maxY])

/-!
## C9
-/

/-- C9: the snap engine never uses the children of the dragged shape or
arrows bound to it as snap targets — in a scene where every non-dragged
shape is such a shape (so every shape is excluded from the target set),
the engine reports zero snap lines and applies no corrective offset. -/
theorem no_self_snapping (proposed : Box) (scene : List SceneShape)
    (draggedIds : List Nat)
    (h : ∀ s ∈ scene, excludedFromSnaps scene draggedIds s = true) :
    snapTranslateInScene proposed scene draggedIds = ⟨proposed, []⟩ := by
  unfold snapTranslateInScene
  have ht : snapTargets scene draggedIds = [] := by
    apply collect_eq_nil
    intro s hs
    simp [snapTargets, h s hs]
  rw [ht]
  exact snapTranslate_nil proposed

/-- C9 witness: a dragged 50×50 box whose only companions are its own
child (nearby edges that would otherwise align) and an arrow bound to it:
no snap lines, no offset. -/
theorem no_self_snapping_witness :
    snapTranslateInScene ⟨25, 0, 50, 50⟩
      [⟨1, none, ⟨25, 0, 50, 50⟩, []⟩,
        ⟨2, some 1, ⟨26, 1, 10, 10⟩, []⟩,
        ⟨3, none, ⟨50, 25, 150, 2⟩, [1]⟩]
      [1]
      = ⟨⟨25, 0, 50, 50⟩, []⟩ :=
  no_self_snapping _ _ _ (by decide)

/-!
## C8
-/

/-- C8: the snap modifier (Ctrl/Cmd) is the overall gate for snap
computation, and grid mode and snap mode are mutually exclusive during a
drag.  Without Ctrl no snap lines are ever computed and the shape moves
freely (rounded to the grid when grid mode is on: proposed x=29 with a
10-unit grid lands on 30 even though a snap candidate sits at 30); with
Ctrl the step is exactly the snap engine, grid mode notwithstanding
(proposed (-29,-42) with the grid on and no snap nearby stays at exactly
(-29,-42)). -/
theorem ctrl_gates_snap_and_grid :
    (∀ (grid : Bool) (gs : ℚ) (p : Box) (others : List Box),
        (translateStep false grid gs p others).lines = []) ∧
    (∀ (grid : Bool) (gs : ℚ) (p : Box) (others : List Box),
        translateStep true grid gs p others = snapTranslate p others) ∧
    translateStep false true 10 ⟨29, 0, 20, 20⟩ [⟨50, 0, 20, 20⟩]
      = ⟨⟨30, 0, 20, 20⟩, []⟩ ∧
    translateStep true true 10 ⟨-29, -42, 20, 20⟩ [⟨50, 0, 20, 20⟩]
      = ⟨⟨-29, -42, 20, 20⟩, []⟩ := by
  refine ⟨fun grid gs p others => rfl, fun grid gs p others => rfl, ?_, ?_⟩
  · norm_num [translateStep, roundToGrid, round_eq]
  · norm_num [translateStep, snapTranslate, xCandidates, yCandidates,
      pointCandsX, pointCandsY, gapCandX, gapCandY, pairsOf, othersPts,
      Box.snapPts, Box.minX, Box.maxX, Box.midX, Box.minY, Box.maxY, Box.midY,
      collect, qabs, snapTol, bestCand, SnapCandidate.nudge, nudgeOf,
      pointLinesX, pointLinesY, candGapLineX, candGapLineY, List.dedup]

/-!
## C3
-/

theorem snapPts_shiftX (D : Box) (dx : ℚ) :
    (Box.mk (D.x + dx) D.y D.w D.h).snapPts
      = D.snapPts.map (fun p => ⟨p.x + dx, p.y⟩) := by
  simp only [Box.snapPts, Box.minX, Box.maxX, Box.midX, Box.minY, Box.maxY,
    Box.midY, List.map, List.cons.injEq, Vec.mk.injEq]
  and_intros <;> ring_nf

/-- C3: when the dragged shape sits between two siblings with a gap on
either side (which is possible only if it fits), both siblings overlap it
on the other axis, the two gap sizes are within tolerance of each other,
and no other candidate interferes (no point match within tolerance on
either axis and no vertical gap pair), the snap engine moves the shape to
the position making both gaps exactly equal and reports the matched pair
as a single gap line containing exactly 2 gaps. -/
theorem gap_between_snaps (L R D : Box)
    (hDw : 0 < D.w) (hLw : 0 < L.w) (hRw : 0 < R.w)
    (hbl : L.maxX ≤ D.minX) (hbr : D.maxX ≤ R.minX)
    (hovL1 : L.minY ≤ D.maxY) (hovL2 : D.minY ≤ L.maxY)
    (hovR1 : R.minY ≤ D.maxY) (hovR2 : D.minY ≤ R.maxY)
    (htol : qabs ((R.minX - D.maxX) - (D.minX - L.maxX)) ≤ snapTol)
    (hpx : pointCandsX D [L, R] = [])
    (hpy : pointCandsY D [L, R] = [])
    (hgy : collect (gapCandY D) (pairsOf [L, R] [L, R]) = []) :
    ∃ F : Box,
      snapTranslate D [L, R]
        = ⟨F, [.gaps .x [(L.maxX, F.minX), (F.maxX, R.minX)]]⟩ ∧
      F.minX - L.maxX = R.minX - F.maxX ∧
      F.y = D.y ∧ F.w = D.w ∧ F.h = D.h := by
  have hLL : gapCandX D (L, L) = none := by
    unfold gapCandX
    rw [if_neg]
    rintro ⟨c1, c2, -⟩
    simp only [Box.minX, Box.maxX] at c1 c2 hbl hbr
    linarith
  have hRL : gapCandX D (R, L) = none := by
    unfold gapCandX
    rw [if_neg]
    rintro ⟨c1, c2, -⟩
    simp only [Box.minX, Box.maxX] at c1 c2 hbl hbr
    linarith
  have hRR : gapCandX D (R, R) = none := by
    unfold gapCandX
    rw [if_neg]
    rintro ⟨c1, c2, -⟩
    simp only [Box.minX, Box.maxX] at c1 c2 hbl hbr
    linarith
  have hLR : gapCandX D (L, R)
      = some (.gap (((R.minX - D.maxX) - (D.minX - L.maxX)) / 2) L R) := by
    unfold gapCandX
    rw [if_pos ⟨hbl, hbr, hovL1, hovL2, hovR1, hovR2, htol⟩]
  have hgx : collect (gapCandX D) (pairsOf [L, R] [L, R])
      = [.gap (((R.minX - D.maxX) - (D.minX - L.maxX)) / 2) L R] := by
    have hp : pairsOf [L, R] [L, R] = [(L, L), (L, R), (R, L), (R, R)] := rfl
    rw [hp]
    simp only [collect, hLL, hLR, hRL, hRR]
  have hxc : xCandidates D [L, R]
      = [.gap (((R.minX - D.maxX) - (D.minX - L.maxX)) / 2) L R] := by
    unfold xCandidates
    rw [hpx, hgx]
    rfl
  have hyc : yCandidates D [L, R] = [] := by
    unfold yCandidates
    rw [hpy, hgy]
    rfl
  have hdxle : qabs (((R.minX - D.maxX) - (D.minX - L.maxX)) / 2)
      ≤ snapTol / 2 := by
    rw [qabs_eq_abs] at htol ⊢
    rw [abs_div, show |(2 : ℚ)| = 2 by norm_num]
    linarith
  have hdxtol : qabs (((R.minX - D.maxX) - (D.minX - L.maxX)) / 2) ≤ snapTol := by
    refine le_trans hdxle ?_
    norm_num [snapTol]
  have hplx :
      pointLinesX
        (Box.mk (D.x + ((R.minX - D.maxX) - (D.minX - L.maxX)) / 2) D.y D.w D.h)
        [L, R] = [] := by
    apply pointLinesX_nil_of_no_align
    intro p hp q hq heq
    rw [snapPts_shiftX] at hp
    obtain ⟨p0, hp0, rfl⟩ := List.mem_map.mp hp
    apply no_near_of_pointCandsX_nil hpx p0 hp0 q hq
    have hqx : q.x = p0.x + ((R.minX - D.maxX) - (D.minX - L.maxX)) / 2 := heq
    rw [show q.x - p0.x = ((R.minX - D.maxX) - (D.minX - L.maxX)) / 2 by
      rw [hqx]; ring]
    exact hdxtol
  have hply :
      pointLinesY
        (Box.mk (D.x + ((R.minX - D.maxX) - (D.minX - L.maxX)) / 2) D.y D.w D.h)
        [L, R] = [] := by
    apply pointLinesY_nil_of_no_align
    intro p hp q hq heq
    rw [snapPts_shiftX] at hp
    obtain ⟨p0, hp0, rfl⟩ := List.mem_map.mp hp
    apply no_near_of_pointCandsY_nil hpy p0 hp0 q hq
    have hqy : q.y = p0.y := heq
    rw [show q.y - p0.y = 0 by rw [hqy]; ring, qabs_zero]
    exact le_of_lt snapTol_pos
  refine ⟨Box.mk (D.x + ((R.minX - D.maxX) - (D.minX - L.maxX)) / 2) D.y D.w D.h,
    ?_, ?_, rfl, rfl, rfl⟩
  · unfold snapTranslate
    rw [hxc, hyc]
    simp only [bestCand, nudgeOf, SnapCandidate.nudge, add_zero]
    rw [hplx, hply]
    simp [candGapLineX, candGapLineY]
  · simp only [Box.minX, Box.maxX]
    ring

/-- C3 witness: the configuration of the translating test — a 10×10 box
proposed at (121,62) between two 50×100 boxes at x=0 and x=200: it snaps
to x=120 (gaps 70 and 70) with one gap line holding exactly 2 gaps. -/
theorem gap_between_snaps_witness :
    ∃ F : Box,
      snapTranslate ⟨121, 62, 10, 10⟩ [⟨0, 0, 50, 100⟩, ⟨200, 0, 50, 100⟩]
        = ⟨F, [.gaps .x [((⟨0, 0, 50, 100⟩ : Box).maxX, F.minX),
            (F.maxX, (⟨200, 0, 50, 100⟩ : Box).minX)]]⟩ ∧
      F.minX - (⟨0, 0, 50, 100⟩ : Box).maxX
        = (⟨200, 0, 50, 100⟩ : Box).minX - F.maxX ∧
      F.y = (⟨121, 62, 10, 10⟩ : Box).y ∧
      F.w = (⟨121, 62, 10, 10⟩ : Box).w ∧
      F.h = (⟨121, 62, 10, 10⟩ : Box).h :=
  gap_between_snaps ⟨0, 0, 50, 100⟩ ⟨200, 0, 50, 100⟩ ⟨121, 62, 10, 10⟩
    (by norm_num) (by norm_num) (by norm_num)
    (by norm_num [Box.minX, Box.maxX]) (by norm_num [Box.minX, Box.maxX])
    (by norm_num [Box.minY, Box.maxY]) (by norm_num [Box.minY, Box.maxY])
    (by norm_num [Box.minY, Box.maxY]) (by norm_num [Box.minY, Box.maxY])
    (by norm_num [Box.minX, Box.maxX, qabs, snapTol])
    (by norm_num [pointCandsX, pairsOf, othersPts, Box.snapPts, Box.minX,
      Box.maxX, Box.midX, Box.minY, Box.maxY, Box.midY, collect, qabs, snapTol])
    (by norm_num [pointCandsY, pairsOf, othersPts, Box.snapPts, Box.minX,
      Box.maxX, Box.midX, Box.minY, Box.maxY, Box.midY, collect, qabs, snapTol])
    (by norm_num [gapCandY, pairsOf, collect, Box.minY, Box.maxY, Box.minX,
      Box.maxX, qabs, snapTol])

/-!
## C5
-/

theorem findPos_eq_none {l : List (Nat × Vec)} {i : Nat}
    (h : ∀ p ∈ l, p.1 ≠ i) : findPos l i = none := by
  unfold findPos
  rw [List.find?_eq_none.mpr]
  · rfl
  · intro p hp
    simp [h p hp]

theorem findPos_append_left {l1 l2 : List (Nat × Vec)} {i : Nat} {v : Vec}
    (h : findPos l1 i = some v) : findPos (l1 ++ l2) i = some v := by
  unfold findPos at h ⊢
  induction l1 with
  | nil => simp [List.find?] at h
  | cons a l ih =>
    rw [List.cons_append]
    simp only [List.find?] at h ⊢
    cases ha : (a.1 == i) with
    | true =>
      rw [ha] at h
      exact h
    | false =>
      rw [ha] at h
      exact ih h

theorem findPos_append_right {l1 l2 : List (Nat × Vec)} {i : Nat}
    (h : ∀ p ∈ l1, p.1 ≠ i) : findPos (l1 ++ l2) i = findPos l2 i := by
  unfold findPos
  induction l1 with
  | nil => rfl
  | cons a l ih =>
    rw [List.cons_append,
      List.find?_cons_of_neg _ (by simp [h a (List.mem_cons_self a l)])]
    exact ih fun p hp => h p (List.mem_cons_of_mem a hp)

theorem findPos_map_fst {l : List ClonePair} (fId : ClonePair → Nat)
    (g : ClonePair → Vec) (hinj : (l.map fId).Nodup) {c : ClonePair}
    (hc : c ∈ l) :
    findPos (l.map (fun d => (fId d, g d))) (fId c) = some (g c) := by
  induction l with
  | nil => cases hc
  | cons a l ih =>
    rw [List.map_cons] at hinj
    rcases List.mem_cons.mp hc with rfl | hcl
    · unfold findPos
      rw [List.map_cons, List.find?_cons_of_pos _ (by simp)]
      rfl
    · have hne : fId a ≠ fId c := by
        intro hEq
        exact (List.nodup_cons.mp hinj).1 (hEq ▸ List.mem_map_of_mem fId hcl)
      unfold findPos
      rw [List.map_cons, List.find?_cons_of_neg _ (by simp [hne])]
      exact ih (List.nodup_cons.mp hinj).2 hcl

theorem cloneIds_nodup {l : List ClonePair} (base : Nat)
    (h : (l.map ClonePair.id).Nodup) :
    (l.map (fun c => base + c.id)).Nodup := by
  have : l.map (fun c => base + c.id)
      = (l.map ClonePair.id).map (fun i => base + i) := by
    rw [List.map_map]
    rfl
  rw [this]
  exact h.map fun a b hab => Nat.add_left_cancel hab

/-- C5: the clone/declone round trip of a translate drag.  Mid-drag the
originals sit at snapshot + offset; pressing the clone modifier restores
every original to exactly its pre-drag position and creates a clone at
exactly the dragged position; further moves drag the clones while the
originals stay put; releasing the modifier past the debounce removes the
clones and leaves the originals at the fully-dragged position. -/
theorem clone_declone_round_trip (snapshot : List ClonePair) (base : Nat)
    (d1 d2 : Vec)
    (hfresh : ∀ c ∈ snapshot, c.id < base)
    (hnodup : (snapshot.map ClonePair.id).Nodup) :
    (∀ c ∈ snapshot,
      findPos (sessionShapes ⟨snapshot, d1, false, base⟩) c.id
        = some (c.pos + d1)) ∧
    (∀ c ∈ snapshot,
      findPos (sessionShapes (sessionAltDown ⟨snapshot, d1, false, base⟩)) c.id
        = some c.pos) ∧
    (∀ c ∈ snapshot,
      findPos (sessionShapes (sessionAltDown ⟨snapshot, d1, false, base⟩))
        (base + c.id) = some (c.pos + d1)) ∧
    (∀ c ∈ snapshot,
      findPos
        (sessionShapes
          (sessionMove d2 (sessionAltDown ⟨snapshot, d1, false, base⟩))) c.id
        = some c.pos) ∧
    (∀ c ∈ snapshot,
      findPos
        (sessionShapes
          (sessionMove d2 (sessionAltDown ⟨snapshot, d1, false, base⟩)))
        (base + c.id) = some (c.pos + d2)) ∧
    (∀ c ∈ snapshot,
      findPos
        (sessionShapes
          (sessionAltUpDebounced
            (sessionMove d2 (sessionAltDown ⟨snapshot, d1, false, base⟩))))
        (base + c.id) = none) ∧
    (∀ c ∈ snapshot,
      findPos
        (sessionShapes
          (sessionAltUpDebounced
            (sessionMove d2 (sessionAltDown ⟨snapshot, d1, false, base⟩))))
        c.id = some (c.pos + d2)) := by
  have horig : ∀ (d : Vec) (c : ClonePair), c ∈ snapshot →
      findPos (snapshot.map (fun e => (e.id, e.pos + d))) c.id
        = some (c.pos + d) := fun d c hc =>
    findPos_map_fst ClonePair.id (fun e => e.pos + d) hnodup hc
  have hcloneNone : ∀ (g : ClonePair → Vec) (c : ClonePair), c ∈ snapshot →
      findPos (snapshot.map (fun e => (e.id, g e))) (base + c.id) = none := by
    intro g c hc
    apply findPos_eq_none
    intro p hp
    obtain ⟨e, he, rfl⟩ := List.mem_map.mp hp
    have := hfresh e he
    omega
  refine ⟨fun c hc => horig d1 c hc, ?_, ?_, ?_, ?_, ?_, ?_⟩
  · intro c hc
    show findPos (snapshot.map (fun e => (e.id, e.pos))
      ++ snapshot.map (fun e => (base + e.id, e.pos + d1))) c.id = some c.pos
    exact findPos_append_left
      (findPos_map_fst ClonePair.id (fun e => e.pos) hnodup hc)
  · intro c hc
    show findPos (snapshot.map (fun e => (e.id, e.pos))
      ++ snapshot.map (fun e => (base + e.id, e.pos + d1))) (base + c.id)
      = some (c.pos + d1)
    rw [findPos_append_right (by
      intro p hp
      obtain ⟨e, he, rfl⟩ := List.mem_map.mp hp
      have := hfresh e he
      omega)]
    exact findPos_map_fst (fun e => base + e.id) (fun e => e.pos + d1)
      (cloneIds_nodup base hnodup) hc
  · intro c hc
    show findPos (snapshot.map (fun e => (e.id, e.pos))
      ++ snapshot.map (fun e => (base + e.id, e.pos + d2))) c.id = some c.pos
    exact findPos_append_left
      (findPos_map_fst ClonePair.id (fun e => e.pos) hnodup hc)
  · intro c hc
    show findPos (snapshot.map (fun e => (e.id, e.pos))
      ++ snapshot.map (fun e => (base + e.id, e.pos + d2))) (base + c.id)
      = some (c.pos + d2)
    rw [findPos_append_right (by
      intro p hp
      obtain ⟨e, he, rfl⟩ := List.mem_map.mp hp
      have := hfresh e he
      omega)]
    exact findPos_map_fst (fun e => base + e.id) (fun e => e.pos + d2)
      (cloneIds_nodup base hnodup) hc
  · intro c hc
    exact hcloneNone (fun e => e.pos + d2) c hc
  · intro c hc
    exact horig d2 c hc

/-- C5 witness: shape 1 at (10,10), dragged by (0,-10), Alt pressed,
dragged to (10,-10) total, Alt released past the debounce — matching the
translating test. -/
theorem clone_declone_round_trip_witness :
    (∀ c ∈ [ClonePair.mk 1 ⟨10, 10⟩],
      findPos (sessionShapes ⟨[ClonePair.mk 1 ⟨10, 10⟩], ⟨0, -10⟩, false, 100⟩)
        c.id = some (c.pos + ⟨0, -10⟩)) ∧
    (∀ c ∈ [ClonePair.mk 1 ⟨10, 10⟩],
      findPos
        (sessionShapes
          (sessionAltDown ⟨[ClonePair.mk 1 ⟨10, 10⟩], ⟨0, -10⟩, false, 100⟩))
        c.id = some c.pos) ∧
    (∀ c ∈ [ClonePair.mk 1 ⟨10, 10⟩],
      findPos
        (sessionShapes
          (sessionAltDown ⟨[ClonePair.mk 1 ⟨10, 10⟩], ⟨0, -10⟩, false, 100⟩))
        (100 + c.id) = some (c.pos + ⟨0, -10⟩)) ∧
    (∀ c ∈ [ClonePair.mk 1 ⟨10, 10⟩],
      findPos
        (sessionShapes
          (sessionMove ⟨10, -10⟩
            (sessionAltDown ⟨[ClonePair.mk 1 ⟨10, 10⟩], ⟨0, -10⟩, false, 100⟩)))
        c.id = some c.pos) ∧
    (∀ c ∈ [ClonePair.mk 1 ⟨10, 10⟩],
      findPos
        (sessionShapes
          (sessionMove ⟨10, -10⟩
            (sessionAltDown ⟨[ClonePair.mk 1 ⟨10, 10⟩], ⟨0, -10⟩, false, 100⟩)))
        (100 + c.id) = some (c.pos + ⟨10, -10⟩)) ∧
    (∀ c ∈ [ClonePair.mk 1 ⟨10, 10⟩],
      findPos
        (sessionShapes
          (sessionAltUpDebounced
            (sessionMove ⟨10, -10⟩
              (sessionAltDown
                ⟨[ClonePair.mk 1 ⟨10, 10⟩], ⟨0, -10⟩, false, 100⟩))))
        (100 + c.id) = none) ∧
    (∀ c ∈ [ClonePair.mk 1 ⟨10, 10⟩],
      findPos
        (sessionShapes
          (sessionAltUpDebounced
            (sessionMove ⟨10, -10⟩
              (sessionAltDown
                ⟨[ClonePair.mk 1 ⟨10, 10⟩], ⟨0, -10⟩, false, 100⟩))))
        c.id = some (c.pos + ⟨10, -10⟩)) :=
  clone_declone_round_trip [ClonePair.mk 1 ⟨10, 10⟩] 100 ⟨0, -10⟩ ⟨10, -10⟩
    (by decide) (by decide)

/-!
## C7
-/

theorem mem_collect {f : α → Option β} {l : List α} {b : β}
    (h : b ∈ collect f l) : ∃ a ∈ l, f a = some b := by
  induction l with
  | nil => cases h
  | cons a l ih =>
    cases hfa : f a with
    | some b0 =>
      replace h : b ∈ b0 :: collect f l := by rw [collect, hfa] at h; exact h
      rcases List.mem_cons.mp h with rfl | h2
      · exact ⟨a, List.mem_cons_self a l, hfa⟩
      · obtain ⟨x, hx, hfx⟩ := ih h2
        exact ⟨x, List.mem_cons_of_mem a hx, hfx⟩
    | none =>
      replace h : b ∈ collect f l := by rw [collect, hfa] at h; exact h
      obtain ⟨x, hx, hfx⟩ := ih h
      exact ⟨x, List.mem_cons_of_mem a hx, hfx⟩

theorem getShapeById_delete_of_mem (e : Editor) (ids : List Nat) (i : Nat)
    (hi : i ∈ ids) : (e.deleteShapes ids).getShapeById i = none := by
  unfold Editor.deleteShapes Editor.getShapeById
  rw [List.find?_eq_none]
  intro s hs
  obtain ⟨a, -, hfa⟩ := mem_collect hs
  by_cases hmem : a.id ∈ ids
  · rw [if_pos hmem] at hfa
    cases hfa
  · rw [if_neg hmem] at hfa
    obtain rfl := Option.some.inj hfa
    intro hbeq
    exact hmem ((beq_iff_eq.mp hbeq) ▸ hi)

theorem find?_eshape_del (shapes : List EShape) (ids : List Nat) (i : Nat)
    (hi : i ∉ ids) :
    (collect (fun s => if s.id ∈ ids then none else some s) shapes).find?
        (fun s => s.id == i)
      = shapes.find? (fun s => s.id == i) := by
  induction shapes with
  | nil => rfl
  | cons s l ih =>
    by_cases hc : s.id ∈ ids
    · have hne : (s.id == i) = false := by
        rw [beq_eq_false_iff_ne]
        intro h
        exact hi (h ▸ hc)
      simp only [collect, if_pos hc, List.find?]
      rw [hne]
      exact ih
    · simp only [collect, if_neg hc, List.find?]
      cases hsi : (s.id == i) with
      | true => rfl
      | false => exact ih

theorem getShapeById_delete_of_not_mem (e : Editor) (ids : List Nat) (i : Nat)
    (hi : i ∉ ids) :
    (e.deleteShapes ids).getShapeById i = e.getShapeById i :=
  find?_eshape_del e.shapes ids i hi

theorem find?_map_id_untouched (shapes : List EShape) (F : EShape → EShape)
    (i : Nat) (hid : ∀ s, (F s).id = s.id) (hu : ∀ s, s.id = i → F s = s) :
    (shapes.map F).find? (fun s => s.id == i)
      = shapes.find? (fun s => s.id == i) := by
  induction shapes with
  | nil => rfl
  | cons s l ih =>
    rw [List.map_cons]
    simp only [List.find?]
    rw [hid s]
    cases hsi : (s.id == i) with
    | true => rw [hu s (beq_iff_eq.mp hsi)]
    | false => exact ih

theorem find?_map_found (shapes : List EShape) (F : EShape → EShape) (i : Nat)
    (c : EShape) (hid : ∀ s, (F s).id = s.id)
    (h : shapes.find? (fun s => s.id == i) = some c) :
    (shapes.map F).find? (fun s => s.id == i) = some (F c) := by
  induction shapes with
  | nil => simp [List.find?] at h
  | cons s l ih =>
    rw [List.map_cons]
    simp only [List.find?] at h ⊢
    rw [hid s]
    cases hsi : (s.id == i) with
    | true =>
      rw [hsi] at h
      obtain rfl := Option.some.inj h
      rfl
    | false =>
      rw [hsi] at h
      exact ih h

theorem pageIsoAux_congr {e e' : Editor} (hs : e'.shapes = e.shapes) :
    ∀ (fuel : Nat) (i : Nat), pageIsoAux e' fuel i = pageIsoAux e fuel i := by
  intro fuel
  induction fuel with
  | zero => intro i; rfl
  | succ n ih =>
    intro i
    have hget : e'.getShapeById i = e.getShapeById i := by
      unfold Editor.getShapeById
      rw [hs]
    rw [pageIsoAux, pageIsoAux, hget]
    cases e.getShapeById i with
    | none => rfl
    | some sh =>
      dsimp only
      cases sh.parentId with
      | none => rfl
      | some p =>
        dsimp only
        rw [ih p]

theorem pageIso_congr {e e' : Editor} (hs : e'.shapes = e.shapes) (i : Nat) :
    e'.pageIso i = e.pageIso i := by
  unfold Editor.pageIso
  rw [hs, pageIsoAux_congr hs]

theorem parentPageIso_congr {e e' : Editor} (hs : e'.shapes = e.shapes) :
    ∀ q, parentPageIso e' q = parentPageIso e q := by
  intro q
  cases q with
  | none => rfl
  | some p => exact pageIso_congr hs p

theorem ChainIso_transfer {e e' : Editor} {q : Option Nat} {ids : List Nat}
    {m : Iso} (hch : ChainIso e q ids m)
    (heq : ∀ j ∈ ids, e'.getShapeById j = e.getShapeById j) :
    ChainIso e' q ids m := by
  induction hch with
  | page => exact .page
  | shape i sh ids m hfind hrec ih =>
    exact .shape i sh ids m
      (by rw [heq i (List.mem_cons_self i ids)]; exact hfind)
      (ih fun j hj => heq j (List.mem_cons_of_mem i hj))

theorem Iso.comp_inv_cancel (m k : Iso) (hn : m.normSq ≠ 0) :
    m.comp (m.inv.comp k) = k := by
  obtain ⟨mc, ms, mtx, mty⟩ := m
  obtain ⟨kc, ks, ktx, kty⟩ := k
  unfold Iso.normSq at hn
  simp only at hn
  simp only [Iso.comp, Iso.inv, Iso.apply, Iso.normSq, Iso.mk.injEq,
    Vec.mk.injEq]
  refine ⟨?_, ?_, ?_, ?_⟩ <;> field_simp <;> ring

theorem find?_eshape_id {l : List EShape} {i : Nat} {c : EShape}
    (h : l.find? (fun s => s.id == i) = some c) : c.id = i := by
  induction l with
  | nil => simp [List.find?] at h
  | cons s l ih =>
    simp only [List.find?] at h
    cases hsi : (s.id == i) with
    | true =>
      rw [hsi] at h
      obtain rfl := Option.some.inj h
      exact beq_iff_eq.mp hsi
    | false =>
      rw [hsi] at h
      exact ih h

theorem getShapeById_id {e : Editor} {i : Nat} {c : EShape}
    (h : e.getShapeById i = some c) : c.id = i :=
  find?_eshape_id h

theorem reparentFn_id (e : Editor) (ids : List Nat) (P : Option Nat)
    (s : EShape) : (reparentFn e ids P s).id = s.id := by
  unfold reparentFn
  by_cases hm : s.id ∈ ids
  · rw [if_pos hm]
    cases e.pageIso s.id <;> cases parentPageIso e P <;> rfl
  · rw [if_neg hm]

theorem reparentFn_untouched (e : Editor) (ids : List Nat) (P : Option Nat)
    (s : EShape) (hm : s.id ∉ ids) : reparentFn e ids P s = s := by
  unfold reparentFn
  rw [if_neg hm]

theorem reparentFn_apply (e : Editor) (P : Option Nat) (c : EShape)
    (Mp Mc : Iso) (hpc : e.pageIso c.id = some Mc)
    (hpp : parentPageIso e P = some Mp) :
    reparentFn e [c.id] P c
      = { c with
          parentId := P
          x := (Mp.inv.comp Mc).t.x
          y := (Mp.inv.comp Mc).t.y
          rc := (Mp.inv.comp Mc).c
          rs := (Mp.inv.comp Mc).s } := by
  unfold reparentFn
  rw [if_pos (List.mem_singleton.mpr rfl), hpc, hpp]

/-- C7: the children-change hook of the group shape.  With no children
left the group is deleted, the focus layer popping to the parent of the
group first when the group was focused.  With exactly one child left the
child is reparented to the former parent of the group — its page transform
(hence its page position) provably unchanged, stated via the ancestor
chain relation `ChainIso` — and the group is deleted. -/
theorem group_collapse (e : Editor) (groupId : Nat) (g : EShape)
    (hg : e.getShapeById groupId = some g) :
    (e.getSortedChildIds groupId = [] →
      (onChildrenChange e groupId).getShapeById groupId = none ∧
      (onChildrenChange e groupId).focusLayerId
        = (if e.focusLayerId = some groupId then g.parentId
            else e.focusLayerId)) ∧
    (∀ cid c Mp Mc pids,
      e.getSortedChildIds groupId = [cid] →
      e.getShapeById cid = some c →
      cid ≠ groupId →
      parentPageIso e g.parentId = some Mp →
      e.pageIso cid = some Mc →
      ChainIso e g.parentId pids Mp →
      Mp.normSq ≠ 0 →
      cid ∉ pids →
      groupId ∉ pids →
      (onChildrenChange e groupId).getShapeById groupId = none ∧
      (∃ c', (onChildrenChange e groupId).getShapeById cid = some c' ∧
        c'.parentId = g.parentId) ∧
      ChainIso (onChildrenChange e groupId) (some cid) (cid :: pids) Mc) := by
  constructor
  · intro hchild
    have hred : onChildrenChange e groupId
        = (if e.focusLayerId = some groupId then e.popFocusLayer
            else e).deleteShapes [groupId] := by
      unfold onChildrenChange
      rw [hg]
      dsimp only
      rw [hchild]
      rfl
    rw [hred]
    constructor
    · exact getShapeById_delete_of_mem _ _ _ (List.mem_singleton.mpr rfl)
    · show (if e.focusLayerId = some groupId then e.popFocusLayer
          else e).focusLayerId = _
      by_cases hf : e.focusLayerId = some groupId
      · rw [if_pos hf, if_pos hf]
        show (Editor.popFocusLayer e).focusLayerId = g.parentId
        simp only [Editor.popFocusLayer, hf, hg]
      · rw [if_neg hf, if_neg hf]
  · intro cid c Mp Mc pids hchild hc hne hpp hpc hch hn hcp hgp
    have hred : onChildrenChange e groupId
        = ((if e.focusLayerId = some groupId then e.popFocusLayer
            else e).reparentShapesById [cid] g.parentId).deleteShapes
            [groupId] := by
      unfold onChildrenChange
      rw [hg]
      dsimp only
      rw [hchild]
      rfl
    obtain ⟨f1, he1⟩ :
        ∃ f1, (if e.focusLayerId = some groupId then e.popFocusLayer else e)
          = ⟨e.shapes, f1⟩ := by
      by_cases hf : e.focusLayerId = some groupId
      · rw [if_pos hf]
        exact ⟨_, rfl⟩
      · rw [if_neg hf]
        exact ⟨e.focusLayerId, rfl⟩
    rw [hred, he1]
    have hs1 : (⟨e.shapes, f1⟩ : Editor).shapes = e.shapes := rfl
    have hcid : c.id = cid := getShapeById_id hc
    have hpi1 : (⟨e.shapes, f1⟩ : Editor).pageIso cid = some Mc := by
      rw [pageIso_congr hs1]
      exact hpc
    have hpp1 : parentPageIso ⟨e.shapes, f1⟩ g.parentId = some Mp := by
      rw [parentPageIso_congr hs1]
      exact hpp
    have hFc : reparentFn ⟨e.shapes, f1⟩ [cid] g.parentId c
        = { c with
            parentId := g.parentId
            x := (Mp.inv.comp Mc).t.x
            y := (Mp.inv.comp Mc).t.y
            rc := (Mp.inv.comp Mc).c
            rs := (Mp.inv.comp Mc).s } := by
      have hl : [cid] = [c.id] := by rw [hcid]
      rw [hl]
      exact reparentFn_apply _ _ c Mp Mc (by rw [hcid]; exact hpi1) hpp1
    have hrep : ((⟨e.shapes, f1⟩ : Editor).reparentShapesById [cid]
          g.parentId).getShapeById cid
        = some (reparentFn ⟨e.shapes, f1⟩ [cid] g.parentId c) := by
      unfold Editor.reparentShapesById Editor.getShapeById
      exact find?_map_found e.shapes _ cid c
        (fun s => reparentFn_id _ _ _ s) hc
    have hdel : (((⟨e.shapes, f1⟩ : Editor).reparentShapesById [cid]
          g.parentId).deleteShapes [groupId]).getShapeById cid
        = some (reparentFn ⟨e.shapes, f1⟩ [cid] g.parentId c) := by
      rw [getShapeById_delete_of_not_mem _ _ _
        (by simp [List.mem_singleton, hne])]
      exact hrep
    refine ⟨getShapeById_delete_of_mem _ _ _ (List.mem_singleton.mpr rfl),
      ⟨reparentFn ⟨e.shapes, f1⟩ [cid] g.parentId c, hdel, by rw [hFc]⟩, ?_⟩
    have htrans : ChainIso (((⟨e.shapes, f1⟩ : Editor).reparentShapesById
          [cid] g.parentId).deleteShapes [groupId]) g.parentId pids Mp := by
      apply ChainIso_transfer hch
      intro j hj
      have hj1 : j ≠ cid := fun h => hcp (h ▸ hj)
      have hj2 : j ≠ groupId := fun h => hgp (h ▸ hj)
      rw [getShapeById_delete_of_not_mem _ _ _
        (by simp [List.mem_singleton, hj2])]
      unfold Editor.reparentShapesById Editor.getShapeById
      exact find?_map_id_untouched e.shapes _ j
        (fun s => reparentFn_id _ _ _ s)
        (fun s hs => reparentFn_untouched _ _ _ s
          (by rw [hs]; simp [List.mem_singleton, hj1]))
    have hchres : ChainIso (((⟨e.shapes, f1⟩ : Editor).reparentShapesById
          [cid] g.parentId).deleteShapes [groupId]) (some cid) (cid :: pids)
        (Mp.comp ((reparentFn ⟨e.shapes, f1⟩ [cid] g.parentId c).localIso)) := by
      refine ChainIso.shape cid _ pids Mp hdel ?_
      rw [hFc]
      exact htrans
    have hiso : Mp.comp ((reparentFn ⟨e.shapes, f1⟩ [cid] g.parentId
        c).localIso) = Mc := by
      rw [hFc]
      show Mp.comp (Mp.inv.comp Mc) = Mc
      exact Iso.comp_inv_cancel Mp Mc hn
    exact hiso ▸ hchres

/-- C7 witness: a rotated top-level shape (cos 3/5, sin 4/5) containing a
group.  First editor: the group is focused and empty — it is deleted and
the focus pops to its parent.  Second editor: the group holds one child —
the child is reparented to the top-level shape with its page transform
(the full composed chain) unchanged, and the group is deleted. -/
theorem group_collapse_witness :
    (onChildrenChange ⟨[⟨0, none, 7, 3, 3/5, 4/5⟩, ⟨1, some 0, 2, 1, 1, 0⟩],
        some 1⟩ 1).getShapeById 1 = none ∧
    (onChildrenChange ⟨[⟨0, none, 7, 3, 3/5, 4/5⟩, ⟨1, some 0, 2, 1, 1, 0⟩],
        some 1⟩ 1).focusLayerId = some 0 ∧
    (onChildrenChange ⟨[⟨0, none, 7, 3, 3/5, 4/5⟩, ⟨1, some 0, 2, 1, 1, 0⟩,
        ⟨2, some 1, 4, 5, 0, 1⟩], none⟩ 1).getShapeById 1 = none ∧
    (∃ c', (onChildrenChange ⟨[⟨0, none, 7, 3, 3/5, 4/5⟩,
        ⟨1, some 0, 2, 1, 1, 0⟩, ⟨2, some 1, 4, 5, 0, 1⟩], none⟩ 1
          ).getShapeById 2 = some c' ∧
      c'.parentId = some 0) ∧
    ChainIso (onChildrenChange ⟨[⟨0, none, 7, 3, 3/5, 4/5⟩,
        ⟨1, some 0, 2, 1, 1, 0⟩, ⟨2, some 1, 4, 5, 0, 1⟩], none⟩ 1)
      (some 2) [2, 0]
      ((((⟨0, none, 7, 3, 3/5, 4/5⟩ : EShape).localIso).comp
          ((⟨1, some 0, 2, 1, 1, 0⟩ : EShape).localIso)).comp
        ((⟨2, some 1, 4, 5, 0, 1⟩ : EShape).localIso)) := by
  have heq : Iso.one.comp ((⟨0, none, 7, 3, 3/5, 4/5⟩ : EShape).localIso)
      = (⟨0, none, 7, 3, 3/5, 4/5⟩ : EShape).localIso := by
    norm_num [Iso.one, Iso.comp, Iso.apply, EShape.localIso, Iso.mk.injEq,
      Vec.mk.injEq]
  have hchain : ChainIso
      ⟨[⟨0, none, 7, 3, 3/5, 4/5⟩, ⟨1, some 0, 2, 1, 1, 0⟩,
        ⟨2, some 1, 4, 5, 0, 1⟩], none⟩ (some 0) [0]
      ((⟨0, none, 7, 3, 3/5, 4/5⟩ : EShape).localIso) :=
    heq ▸ (ChainIso.shape 0 ⟨0, none, 7, 3, 3/5, 4/5⟩ [] Iso.one rfl
      ChainIso.page)
  have h0 := (group_collapse
    ⟨[⟨0, none, 7, 3, 3/5, 4/5⟩, ⟨1, some 0, 2, 1, 1, 0⟩], some 1⟩ 1
    ⟨1, some 0, 2, 1, 1, 0⟩ rfl).1 rfl
  have h1 := (group_collapse
    ⟨[⟨0, none, 7, 3, 3/5, 4/5⟩, ⟨1, some 0, 2, 1, 1, 0⟩,
      ⟨2, some 1, 4, 5, 0, 1⟩], none⟩ 1
    ⟨1, some 0, 2, 1, 1, 0⟩ rfl).2 2 ⟨2, some 1, 4, 5, 0, 1⟩
    ((⟨0, none, 7, 3, 3/5, 4/5⟩ : EShape).localIso)
    ((((⟨0, none, 7, 3, 3/5, 4/5⟩ : EShape).localIso).comp
        ((⟨1, some 0, 2, 1, 1, 0⟩ : EShape).localIso)).comp
      ((⟨2, some 1, 4, 5, 0, 1⟩ : EShape).localIso))
    [0] rfl rfl (by decide) rfl rfl hchain
    (by norm_num [Iso.normSq, EShape.localIso]) (by decide) (by decide)
  exact ⟨h0.1, by simpa using h0.2, h1.1, h1.2.1, h1.2.2⟩

end Tldraw
